import Mathlib

/-!
Shallow embedding of the pyhodl core (transaction normalization and balance
reconstruction) and proofs about it.

Sources embedded:
* `src/pyhodl/models/tables.py`        — `DatetimeTable`
* `src/pyhodl/core/models/exchanges.py` — `CryptoExchange.build_wallets`,
  `Portfolio.get_balances_from_deltas`
* `src/pyhodl/data/exchanges.py`       — `BinanceParser`, `BitfinexParser`,
  `CoinbaseParser` classification/extraction

Python floats are embedded as `Rat` (the programs only add, subtract,
compare and take absolute values of parsed decimals), datetimes as `Int`
seconds, and Python `dict`s as association lists in first-insertion order
(later assignment to an existing key overwrites the value in place).
Fallible code (`KeyError`, `TypeError`, `IndexError`) is embedded with
`Except Unit` / `Option` results.
-/

namespace Pyhodl

/-! ## DatetimeTable (src/pyhodl/models/tables.py) -/

/-! ### Python dicts as association lists in first-insertion order -/

section Pydict

variable {α β : Type} [DecidableEq α]

/-- Python dict assignment `m[k] = v`: overwrite the (unique) entry holding
`k` in place, else append at the end (dicts preserve insertion order). -/
def pyDictSet : List (α × β) → α → β → List (α × β)
  | [], k, v => [(k, v)]
  | p :: m, k, v => if p.1 = k then (k, v) :: m else p :: pyDictSet m k v

/-- Python dict lookup `m[k]`, as an `Option` (`none` = `KeyError`). -/
def pyDictGet : List (α × β) → α → Option β
  | [], _ => none
  | p :: m, k => if p.1 = k then some p.2 else pyDictGet m k

theorem pyDictGet_set (m : List (α × β)) (k k' : α) (v : β) :
    pyDictGet (pyDictSet m k v) k' =
      if k' = k then some v else pyDictGet m k' := by
  induction m with
  | nil =>
    by_cases h : k' = k
    · subst h; simp [pyDictSet, pyDictGet]
    · simp [pyDictSet, pyDictGet, h, Ne.symm h]
  | cons p m ih =>
    by_cases hp : p.1 = k
    · subst hp
      by_cases h : k' = p.1
      · subst h; simp [pyDictSet, pyDictGet]
      · simp [pyDictSet, pyDictGet, h, Ne.symm h]
    · by_cases hq : p.1 = k'
      · have hk : ¬k' = k := fun hh => hp (hq.trans hh)
        simp [pyDictSet, pyDictGet, hp, hq, hk]
      · simp [pyDictSet, pyDictGet, hp, hq, ih]

theorem pyDictGet_isSome_iff (m : List (α × β)) (k : α) :
    (pyDictGet m k).isSome ↔ k ∈ m.map Prod.fst := by
  induction m with
  | nil => simp [pyDictGet]
  | cons p m ih =>
    by_cases h : p.1 = k
    · simp [pyDictGet, h]
    · have hk : ¬k = p.1 := fun hh => h hh.symm
      simp [pyDictGet, h, ih, hk]

theorem pyDictGet_eq_none_iff (m : List (α × β)) (k : α) :
    pyDictGet m k = none ↔ k ∉ m.map Prod.fst := by
  rw [← pyDictGet_isSome_iff]
  cases pyDictGet m k <;> simp

theorem pyDictSet_keys (m : List (α × β)) (k : α) (v : β) :
    (pyDictSet m k v).map Prod.fst =
      if k ∈ m.map Prod.fst then m.map Prod.fst
      else m.map Prod.fst ++ [k] := by
  induction m with
  | nil => simp [pyDictSet]
  | cons p m ih =>
    by_cases hp : p.1 = k
    · simp [pyDictSet, hp]
    · have hkp : ¬k = p.1 := fun hh => hp hh.symm
      by_cases h : k ∈ m.map Prod.fst
      · simp [pyDictSet, hp, h, ih, hkp]
      · simp [pyDictSet, hp, h, ih, hkp]

theorem pyDictSet_keys_nodup (m : List (α × β)) (k : α) (v : β)
    (h : (m.map Prod.fst).Nodup) :
    ((pyDictSet m k v).map Prod.fst).Nodup := by
  rw [pyDictSet_keys]
  by_cases hk : k ∈ m.map Prod.fst
  · simpa [hk] using h
  · simp only [if_neg hk]
    rw [List.nodup_append]
    exact ⟨h, List.nodup_singleton k, by
      intro a ha hb
      simp only [List.mem_singleton] at hb
      subst hb
      exact hk ha⟩

end Pydict

/-- A raw item of the date-indexed database: its `"date"` field plus an
opaque payload standing for the rest of the dict. -/
structure RawItem where
  date : Int
  payload : Nat
deriving DecidableEq, Repr

abbrev DictEntry := Int × RawItem

/-- The dict comprehension `{item["date"]: item for item in ...}`. -/
def dictOf (items : List RawItem) : List DictEntry :=
  items.foldl (fun m it => pyDictSet m it.date it) []

/-- Lookup in the `content` dict. -/
def dictGet (m : List DictEntry) (k : Int) : Option RawItem :=
  pyDictGet m k

/-- Modelled from the spec: `parse_datetime` (imported from `pyhodl.utils`,
not among the provided sources).  The spec's data model takes `content` to be
a "mapping from timestamp to raw record", so date keys are already canonical
timestamps and parsing is the identity. -/
def parse_datetime (d : Int) : Int := d

structure DatetimeTable where
  content : List DictEntry
  dates : List Int
  maxError : Int

/-- `DatetimeTable.__init__`: build `content` from the record list, then
`dates = sorted([parse_datetime(date) for date in self.content])`. -/
def mkDatetimeTable (records : List RawItem) (maxErrorSearch : Int) :
    DatetimeTable :=
  let content := dictOf records
  { content := content
    dates := List.insertionSort (· ≤ ·)
      (content.map (fun p => parse_datetime p.1))
    maxError := maxErrorSearch }

/-- `bisect.bisect` (= `bisect_right`) of `x` in `l`; on a sorted list the
insertion point is the number of elements `≤ x`. -/
def bisect (l : List Int) (x : Int) : Nat :=
  (l.takeWhile (fun d => decide (d ≤ x))).length

/-- `DatetimeTable.get_values_on`, line by line:

    bisect_insert = bisect(self.dates, dt)
    low, high = bisect_insert - 1, bisect_insert
    low = self.dates[low] if low > 0 else None
    high = self.dates[high] if high < len(self.dates) else None
    err_low = (dt - low).total_seconds() if low else float("inf")
    err_high = (high - dt).total_seconds() if low else float("inf")

Note the source's guards: `low > 0` (not `>= 0`), and `err_high` tested on
`low` (not `high`).  So when `low` is `None` both errors are infinite and
both branches fail (result `None`), and when `low` exists but `high` is
`None`, Python evaluates `None - dt`: a `TypeError`, embedded as
`Except.error`. -/
def getValuesOn (t : DatetimeTable) (dt : Int) : Except Unit (Option RawItem) :=
  let bi := bisect t.dates dt
  let low? : Option Int :=
    if bi - 1 > 0 then some (t.dates.getD (bi - 1) 0) else none
  let high? : Option Int :=
    if bi < t.dates.length then some (t.dates.getD bi 0) else none
  match low?, high? with
  | none, _ => Except.ok none
  | some _, none => Except.error ()
  | some lo, some hi =>
    let errLow := dt - lo
    let errHigh := hi - dt
    if errLow ≤ errHigh ∧ errLow < t.maxError then
      Except.ok (dictGet t.content lo)
    else if errHigh ≤ errLow ∧ errHigh < t.maxError then
      Except.ok (dictGet t.content hi)
    else
      Except.ok none

/-- The spec's worked example: dates 2020-01-01 and 2020-01-10 (epoch
seconds relative to 2020-01-01), tolerance 86400 seconds. -/
def specExampleTable : DatetimeTable :=
  mkDatetimeTable [⟨0, 100⟩, ⟨777600, 200⟩] 86400

/-- A two-row table used for the boundary cases of `get_values_on`. -/
def boundaryExampleTable : DatetimeTable :=
  mkDatetimeTable [⟨100, 1⟩, ⟨200, 2⟩] 1000

/-! Helper lemmas about the dict embedding. -/

theorem dictOf_keys_nodup (items : List RawItem) :
    ((dictOf items).map Prod.fst).Nodup := by
  suffices h : ∀ m : List DictEntry, (m.map Prod.fst).Nodup →
      ((items.foldl (fun m it => pyDictSet m it.date it) m).map
        Prod.fst).Nodup by
    exact h [] (by simp)
  induction items with
  | nil => intro m hm; simpa using hm
  | cons it rest ih =>
    intro m hm
    exact ih _ (pyDictSet_keys_nodup m it.date it hm)

/-- C1: after constructing a `DatetimeTable` from any finite record set,
`dates` is sorted, duplicate-free, and its members are exactly the keys of
`content` (every member of `dates` indexes a record of `content` and
conversely). -/
theorem datetimeTable_dates_invariant (records : List RawItem) (me : Int) :
    ((mkDatetimeTable records me).dates.Sorted (· ≤ ·) ∧
      (mkDatetimeTable records me).dates.Nodup) ∧
      ∀ d, d ∈ (mkDatetimeTable records me).dates ↔
        (dictGet (mkDatetimeTable records me).content d).isSome := by
  have hkeys : ((dictOf records).map Prod.fst).Nodup := dictOf_keys_nodup records
  have hmapeq : (dictOf records).map (fun p => parse_datetime p.1) =
      (dictOf records).map Prod.fst := by
    simp [parse_datetime]
  refine ⟨⟨?_, ?_⟩, ?_⟩
  · exact List.sorted_insertionSort _ _
  · simp only [mkDatetimeTable, hmapeq]
    exact ((List.perm_insertionSort _ _).nodup_iff).mpr hkeys
  · intro d
    simp only [mkDatetimeTable, hmapeq, List.mem_insertionSort]
    rw [dictGet, pyDictGet_isSome_iff]

/-- C2 (failing input): on the spec's own example table, querying
2020-01-02 (86400 s after the first key) returns "not found" instead of the
2020-01-01 record, and even querying the first key exactly (error 0) returns
"not found": the code discards the preceding neighbor whenever its index is
0 (`low > 0` instead of `>= 0`) and then treats both errors as infinite. -/
theorem getValuesOn_spec_example_not_found :
    getValuesOn specExampleTable 86400 = Except.ok none ∧
      getValuesOn specExampleTable 0 = Except.ok none := by
  constructor <;> rfl

/-- C3 (failing input): querying before the first key (insertion point at
the front) returns "not found" even though the following neighbor is within
tolerance (the source guards `err_high` with `if low`, so a missing
preceding neighbor forces *both* errors to infinity); and querying past the
last key raises `TypeError` (`None - dt`) instead of using the preceding
neighbor. -/
theorem getValuesOn_boundary_bugs :
    getValuesOn boundaryExampleTable 50 = Except.ok none ∧
      getValuesOn boundaryExampleTable 250 = Except.error () := by
  constructor <;> rfl

/-! ## Portfolio.get_balances_from_deltas
(src/pyhodl/core/models/exchanges.py) -/

/-- A monetary value: a parsed number or the "unknown" marker.

Modelled from the spec: the `NAN` constant is imported from `pyhodl.config`,
which is not among the provided sources; the spec describes it as "a marker
for unknown, excluded before sorting", so the marker is a sentinel that
compares equal to itself and is removed by the `!= NAN` filter.  Addition
propagates the marker, as float arithmetic propagates NaN. -/
inductive Val where
  | num : Rat → Val
  | nan : Val
deriving DecidableEq, Repr

def Val.add : Val → Val → Val
  | Val.num a, Val.num b => Val.num (a + b)
  | _, _ => Val.nan

/-- A delta dict reduced to its `DATE_TIME_KEY` and `VALUE_KEY` fields. -/
abbrev Delta := Int × Val

/-- The filter `delta[VALUE_KEY] != NAN`. -/
def deltaKnown (d : Delta) : Bool := decide (d.2 ≠ Val.nan)

/-- The comparison induced by `key=lambda x: x[DATE_TIME_KEY]`. -/
def Delta.dateLE (a b : Delta) : Prop := a.1 ≤ b.1

/-- The corresponding strict comparison, used to show that sorting is
deterministic on date-distinct inputs. -/
def Delta.dateLT (a b : Delta) : Prop := a.1 < b.1

instance : DecidableRel Delta.dateLE :=
  fun a b => inferInstanceAs (Decidable (a.1 ≤ b.1))

instance : IsTotal Delta Delta.dateLE := ⟨fun a b => le_total a.1 b.1⟩

instance : IsTrans Delta Delta.dateLE := ⟨fun _ _ _ h1 h2 => le_trans h1 h2⟩

instance : IsAntisymm Delta Delta.dateLT :=
  ⟨fun _ _ h1 h2 => absurd (lt_trans h1 h2) (lt_irrefl _)⟩

/-- `sorted(..., key=lambda x: x[DATE_TIME_KEY])`: Python's sort is stable,
and insertion sort with a `≤`-by-date relation is the same stable sort. -/
def sortDeltas (l : List Delta) : List Delta :=
  List.insertionSort Delta.dateLE l

/-- The loop `for delta in deltas[1:]: balances.append({DATE_TIME_KEY:
delta[DATE_TIME_KEY], VALUE_KEY: balances[-1][VALUE_KEY] + delta[VALUE_KEY]})`,
with `acc` the value of `balances[-1][VALUE_KEY]`. -/
def buildBal : Val → List Delta → List Delta
  | _, [] => []
  | acc, d :: rest => (d.1, acc.add d.2) :: buildBal (acc.add d.2) rest

/-- `Portfolio.get_balances_from_deltas`.  The `if not deltas: return []`
guard runs on the *unfiltered* input; `none` embeds the `IndexError` raised
by `deltas[0]` when the input was nonempty but every delta was filtered out
as unknown. -/
def getBalancesFromDeltas (deltas : List Delta) : Option (List Delta) :=
  if deltas.isEmpty then some []
  else
    match sortDeltas (deltas.filter deltaKnown) with
    | [] => none
    | d0 :: rest => some (d0 :: buildBal d0.2 rest)

/-- Sum of a list of values, starting from 0 (the claim's "sum of the first
i delta values"). -/
def valSum (l : List Val) : Val := l.foldl Val.add (Val.num 0)

/-- The claim's prefix-sum series: the i-th entry is the sum of the first
i+1 values. -/
def prefixVals (l : List Val) : List Val :=
  (List.range l.length).map (fun i => valSum (l.take (i + 1)))

/-- Running sums of `l` continuing from accumulator `acc`. -/
def prefixFrom : Val → List Val → List Val
  | _, [] => []
  | acc, v :: rest => acc.add v :: prefixFrom (acc.add v) rest

theorem Val.zero_add (v : Val) : Val.add (Val.num 0) v = v := by
  cases v <;> simp [Val.add]

theorem Val.add_right_comm (b x y : Val) :
    Val.add (Val.add b x) y = Val.add (Val.add b y) x := by
  cases b <;> cases x <;> cases y <;>
    first
      | rfl
      | (simp only [Val.add]; ring_nf)

theorem buildBal_map_snd (acc : Val) (l : List Delta) :
    (buildBal acc l).map Prod.snd = prefixFrom acc (l.map Prod.snd) := by
  induction l generalizing acc with
  | nil => rfl
  | cons d rest ih => simp [buildBal, prefixFrom, ih]

theorem prefixFrom_eq (acc : Val) (l : List Val) :
    prefixFrom acc l =
      (List.range l.length).map
        (fun i => (l.take (i + 1)).foldl Val.add acc) := by
  induction l generalizing acc with
  | nil => rfl
  | cons v rest ih =>
    rw [prefixFrom, ih (Val.add acc v), List.length_cons,
      List.range_succ_eq_map]
    simp only [List.map_cons, List.map_map, Function.comp]
    congr 1

theorem prefixVals_cons (v : Val) (vs : List Val) :
    prefixVals (v :: vs) = v :: prefixFrom v vs := by
  rw [prefixFrom_eq]
  simp only [prefixVals, valSum, List.length_cons, List.range_succ_eq_map,
    List.map_cons, List.map_map, Function.comp]
  congr 1
  · simp [Val.zero_add]
  · apply List.map_congr_left
    intro i _
    simp [List.take_succ_cons, Val.zero_add]

theorem prefixVals_last (l : List Val) :
    (prefixVals l).getLastD (Val.num 0) = valSum l := by
  cases l with
  | nil => rfl
  | cons v vs =>
    simp only [prefixVals, List.length_cons, List.range_succ,
      List.map_append, List.map_cons, List.map_nil]
    rw [List.getLastD_concat]
    simp [List.take_succ_cons, List.take_length]

theorem foldl_valAdd_perm {l₁ l₂ : List Val} (hp : l₁.Perm l₂) :
    ∀ b, l₁.foldl Val.add b = l₂.foldl Val.add b := by
  induction hp with
  | nil => intro b; rfl
  | cons x _ ih => intro b; simp only [List.foldl_cons]; exact ih _
  | swap x y l => intro b; simp only [List.foldl_cons, Val.add_right_comm]
  | trans _ _ ih₁ ih₂ => intro b; rw [ih₁ b, ih₂ b]

theorem valSum_perm {l₁ l₂ : List Val} (hp : l₁.Perm l₂) :
    valSum l₁ = valSum l₂ :=
  foldl_valAdd_perm hp _

/-- C4 (counterexample): a nonempty input whose only delta carries the
unknown marker passes the emptiness guard, is filtered to nothing, and then
`balances = [deltas[0]]` raises `IndexError` — instead of returning the
empty prefix-sum series the claim's universal statement requires. -/
theorem getBalancesFromDeltas_all_nan_crash :
    getBalancesFromDeltas [((0 : Int), Val.nan)] = none := by rfl

/-- C4 (amended): whenever the input is empty or at least one delta is not
the unknown marker, `get_balances_from_deltas` filters the unknown deltas
out, sorts by date, and returns the prefix-sum series: the i-th output value
is the sum of the first i+1 sorted delta values, and the last output value
is the sum of all non-unknown delta values. -/
theorem getBalancesFromDeltas_prefix_sums (deltas : List Delta)
    (h : deltas = [] ∨ deltas.filter deltaKnown ≠ []) :
    ∃ bs, getBalancesFromDeltas deltas = some bs ∧
      bs.map Prod.snd =
        prefixVals ((sortDeltas (deltas.filter deltaKnown)).map Prod.snd) ∧
      (bs.map Prod.snd).getLastD (Val.num 0) =
        valSum ((deltas.filter deltaKnown).map Prod.snd) := by
  rcases h with rfl | hne
  · exact ⟨[], rfl, rfl, rfl⟩
  · have hdne : deltas ≠ [] := by
      intro hd
      exact hne (by simp [hd])
    have hsne : sortDeltas (deltas.filter deltaKnown) ≠ [] := by
      intro hs
      have hperm := List.perm_insertionSort Delta.dateLE
        (deltas.filter deltaKnown)
      rw [sortDeltas] at hs
      rw [hs] at hperm
      exact hne hperm.symm.eq_nil
    cases hs : sortDeltas (deltas.filter deltaKnown) with
    | nil => exact absurd hs hsne
    | cons d0 rest =>
      refine ⟨d0 :: buildBal d0.2 rest, ?_, ?_, ?_⟩
      · simp only [getBalancesFromDeltas, hs]
        rw [if_neg (by simpa [List.isEmpty_iff] using hdne)]
      · rw [List.map_cons, buildBal_map_snd, List.map_cons, prefixVals_cons]
      · rw [List.map_cons, buildBal_map_snd, ← prefixVals_cons,
          prefixVals_last]
        apply valSum_perm
        have hperm : (sortDeltas (deltas.filter deltaKnown)).Perm
            (deltas.filter deltaKnown) :=
          List.perm_insertionSort Delta.dateLE _
        rw [hs] at hperm
        exact hperm.map Prod.snd

/-- Worked example deltas (the spec's `[(t1,5),(t2,-2),(t3,3)]`, shuffled). -/
def exDeltas : List Delta :=
  [((2 : Int), Val.num 3), (0, Val.num 5), (1, Val.num (-2))]

/-- Witness for the amended C4 at the spec's example. -/
theorem getBalancesFromDeltas_prefix_sums_witness :
    (exDeltas = [] ∨ exDeltas.filter deltaKnown ≠ []) ∧
      ∃ bs, getBalancesFromDeltas exDeltas = some bs ∧
        bs.map Prod.snd =
          prefixVals ((sortDeltas (exDeltas.filter deltaKnown)).map
            Prod.snd) ∧
        (bs.map Prod.snd).getLastD (Val.num 0) =
          valSum ((exDeltas.filter deltaKnown).map Prod.snd) :=
  ⟨Or.inr (by decide),
    getBalancesFromDeltas_prefix_sums exDeltas (Or.inr (by decide))⟩

/-- Two shuffles of the same two-delta multiset sharing one date. -/
def dupA : List Delta := [((0 : Int), Val.num 1), (0, Val.num 2)]

/-- The other shuffle of `dupA`. -/
def dupB : List Delta := [((0 : Int), Val.num 2), (0, Val.num 1)]

/-- C5 (counterexample): when several deltas share the same date, a shuffle
of the input changes the output — the intermediate balances follow the
stable sort's tie order, so `dupA` yields values `[1, 3]` while its
permutation `dupB` yields `[2, 3]`. -/
theorem getBalancesFromDeltas_not_shuffle_invariant :
    dupA.Perm dupB ∧
      getBalancesFromDeltas dupA ≠ getBalancesFromDeltas dupB := by
  constructor
  · decide
  · decide

/-- C5 (amended): `get_balances_from_deltas` is shuffle-invariant whenever
the non-unknown deltas carry pairwise distinct dates: for any permutation of
such an input the outputs coincide. -/
theorem getBalancesFromDeltas_perm_invariant (l₁ l₂ : List Delta)
    (hp : l₁.Perm l₂)
    (hnd : ((l₁.filter deltaKnown).map Prod.fst).Nodup) :
    getBalancesFromDeltas l₁ = getBalancesFromDeltas l₂ := by
  have hfp : (l₁.filter deltaKnown).Perm (l₂.filter deltaKnown) :=
    hp.filter deltaKnown
  have hps₁ : (sortDeltas (l₁.filter deltaKnown)).Perm
      (l₁.filter deltaKnown) := List.perm_insertionSort _ _
  have hps₂ : (sortDeltas (l₂.filter deltaKnown)).Perm
      (l₂.filter deltaKnown) := List.perm_insertionSort _ _
  have hsp : (sortDeltas (l₁.filter deltaKnown)).Perm
      (sortDeltas (l₂.filter deltaKnown)) :=
    (hps₁.trans hfp).trans hps₂.symm
  have hsorted₁ : (sortDeltas (l₁.filter deltaKnown)).Sorted Delta.dateLE :=
    List.sorted_insertionSort _ _
  have hsorted₂ : (sortDeltas (l₂.filter deltaKnown)).Sorted Delta.dateLE :=
    List.sorted_insertionSort _ _
  have hstrict : ∀ s : List Delta, s.Sorted Delta.dateLE →
      (s.map Prod.fst).Nodup → s.Sorted Delta.dateLT := by
    intro s hs hnds
    have hpne : s.Pairwise (fun a b : Delta => a.1 ≠ b.1) := by
      rw [List.Nodup, List.pairwise_map] at hnds
      exact hnds
    exact (hs.and hpne).imp (fun hab => lt_of_le_of_ne hab.1 hab.2)
  have hnd₁ : ((sortDeltas (l₁.filter deltaKnown)).map Prod.fst).Nodup :=
    ((hps₁.map Prod.fst).nodup_iff).mpr hnd
  have hnd₂ : ((sortDeltas (l₂.filter deltaKnown)).map Prod.fst).Nodup :=
    ((hsp.symm.map Prod.fst).nodup_iff).mpr hnd₁
  have hseq : sortDeltas (l₁.filter deltaKnown) =
      sortDeltas (l₂.filter deltaKnown) :=
    List.eq_of_perm_of_sorted hsp
      (hstrict _ hsorted₁ hnd₁) (hstrict _ hsorted₂ hnd₂)
  have hemp : l₁.isEmpty = l₂.isEmpty := by
    cases h₁ : l₁ with
    | nil =>
      have : l₂ = [] := (h₁ ▸ hp).symm.eq_nil
      simp [this]
    | cons a t =>
      cases h₂ : l₂ with
      | nil =>
        have : l₁ = [] := (h₂ ▸ hp).eq_nil
        rw [h₁] at this
        exact absurd this (by simp)
      | cons b u => rfl
  simp only [getBalancesFromDeltas, hemp, hseq]

/-- A shuffled pair with distinct dates for the amended C5. -/
def permEx₁ : List Delta := [((5 : Int), Val.num 2), (0, Val.num 1)]

/-- The other shuffle of `permEx₁`. -/
def permEx₂ : List Delta := [((0 : Int), Val.num 1), (5, Val.num 2)]

/-- Witness for the amended C5 on a concrete shuffled pair. -/
theorem getBalancesFromDeltas_perm_invariant_witness :
    permEx₁.Perm permEx₂ ∧
      ((permEx₁.filter deltaKnown).map Prod.fst).Nodup ∧
      getBalancesFromDeltas permEx₁ = getBalancesFromDeltas permEx₂ :=
  ⟨by decide, by decide,
    getBalancesFromDeltas_perm_invariant permEx₁ permEx₂ (by decide)
      (by decide)⟩

/-! ## Exchange adapters (src/pyhodl/data/exchanges.py) -/

/-- Effective transaction class assigned by an adapter's `if/elif` chain. -/
inductive TxClass where
  | trade
  | deposit
  | withdrawal
  | unknown
deriving DecidableEq, Repr

/-- The `(coin_buy, amount_buy, coin_sell, amount_sell)` quadruple returned
by `get_coins_amounts` (`None` coins become `none`). -/
abbrev CoinsAmounts := Option String × Rat × Option String × Rat

/-- A Binance raw record: `is_trade`/`is_deposit`/`is_withdrawal` test key
*presence* (`"isBuyer" in raw`, …), so presence flags are part of the
record, alongside the field values read by the trade branch. -/
structure BinanceRaw where
  hasIsBuyer : Bool
  hasInsertTime : Bool
  hasApplyTime : Bool
  symbol : String
  qty : Rat
  price : Rat
  isBuyer : Bool
  asset : String
  amount : Rat
deriving DecidableEq, Repr

/-- `BinanceParser.is_trade`: `"isBuyer" in raw`. -/
def binanceIsTrade (raw : BinanceRaw) : Bool := raw.hasIsBuyer

/-- `BinanceParser.is_deposit`: `"insertTime" in raw`. -/
def binanceIsDeposit (raw : BinanceRaw) : Bool := raw.hasInsertTime

/-- `BinanceParser.is_withdrawal`: `"applyTime" in raw`. -/
def binanceIsWithdrawal (raw : BinanceRaw) : Bool := raw.hasApplyTime

/-- `BinanceParser.get_coins_amounts`.  In the trade branch the source
first assigns the USDT-suffix split under `if market.endswith("USDT")`, and
then *unconditionally* reassigns `coin_buy, coin_sell = market[:-3],
market[-3:]` (the reassignment is not under an `else`), so the suffix split
is dead and the fixed last-3-characters split always wins. -/
def binanceGetCoinsAmounts (raw : BinanceRaw) : CoinsAmounts :=
  if binanceIsTrade raw then
    let market := raw.symbol
    let coin_buy := market.dropRight 3
    let coin_sell := market.takeRight 3
    let amount_buy := raw.qty
    let amount_sell := raw.price * amount_buy
    if raw.isBuyer then
      (some coin_buy, amount_buy, some coin_sell, amount_sell)
    else
      (some coin_sell, amount_sell, some coin_buy, amount_buy)
  else if binanceIsDeposit raw then
    (some raw.asset, raw.amount, none, 0)
  else if binanceIsWithdrawal raw then
    (none, 0, some raw.asset, raw.amount)
  else
    (none, 0, none, 0)

/-- The `if is_trade / elif is_deposit / elif is_withdrawal / else` dispatch
order shared by `BinanceParser.get_coins_amounts`, `get_date` and
`is_successful`. -/
def binanceClassify (raw : BinanceRaw) : TxClass :=
  if binanceIsTrade raw then TxClass.trade
  else if binanceIsDeposit raw then TxClass.deposit
  else if binanceIsWithdrawal raw then TxClass.withdrawal
  else TxClass.unknown

/-- A Coinbase raw record: its `type` string, the two nested amounts
`amount.amount` / `native_amount.amount` (with their currencies), and the
status string. -/
structure CoinbaseRaw where
  type : String
  amount : Rat
  amountCurrency : String
  nativeAmount : Rat
  nativeCurrency : String
  status : String
deriving DecidableEq, Repr

/-- `CoinbaseParser.is_trade`: `raw["type"] in ["buy", "sell"]`. -/
def coinbaseIsTrade (raw : CoinbaseRaw) : Bool :=
  raw.type == "buy" || raw.type == "sell"

/-- `CoinbaseParser.is_deposit`: both amounts nonnegative. -/
def coinbaseIsDeposit (raw : CoinbaseRaw) : Bool :=
  decide (0 ≤ raw.amount) && decide (0 ≤ raw.nativeAmount)

/-- `CoinbaseParser.is_withdrawal`: both amounts negative. -/
def coinbaseIsWithdrawal (raw : CoinbaseRaw) : Bool :=
  decide (raw.amount < 0) && decide (raw.nativeAmount < 0)

/-- The `if is_trade / elif is_deposit / elif is_withdrawal / else` dispatch
order of `CoinbaseParser.get_coins_amounts`. -/
def coinbaseClassify (raw : CoinbaseRaw) : TxClass :=
  if coinbaseIsTrade raw then TxClass.trade
  else if coinbaseIsDeposit raw then TxClass.deposit
  else if coinbaseIsWithdrawal raw then TxClass.withdrawal
  else TxClass.unknown

/-- A Coinbase "buy" whose amounts are both positive: classified as a trade
*and* as a deposit by the raw predicates. -/
def coinbaseOverlapRec : CoinbaseRaw :=
  { type := "buy", amount := 5, amountCurrency := "BTC", nativeAmount := 50
    nativeCurrency := "USD", status := "completed" }

/-- A Coinbase record matching none of the three predicates: an unknown
`type` with amounts of opposite signs. -/
def coinbaseNoMatchRec : CoinbaseRaw :=
  { type := "transfer", amount := 5, amountCurrency := "BTC"
    nativeAmount := -3, nativeCurrency := "USD", status := "completed" }

/-- A Binance record carrying both an `isBuyer` and an `insertTime` key:
classified as a trade *and* as a deposit by the raw predicates. -/
def binanceOverlapRec : BinanceRaw :=
  { hasIsBuyer := true, hasInsertTime := true, hasApplyTime := false
    symbol := "BTCUSDT", qty := 1, price := 2, isBuyer := true
    asset := "BTC", amount := 1 }

/-- C7 (counterexample): the classification predicates are neither mutually
exclusive nor total.  A Coinbase-like "buy" record with nonnegative amounts
satisfies `is_trade` and `is_deposit` simultaneously; a Binance-like record
with both marker keys does too; and a Coinbase-like record with an unknown
type and mixed-sign amounts satisfies none of the three (the source has no
`UnclassifiableRecordError` — such records fall through to a sentinel
result). -/
theorem classification_not_exclusive_nor_total :
    (coinbaseIsTrade coinbaseOverlapRec = true ∧
      coinbaseIsDeposit coinbaseOverlapRec = true) ∧
    (binanceIsTrade binanceOverlapRec = true ∧
      binanceIsDeposit binanceOverlapRec = true) ∧
    (coinbaseIsTrade coinbaseNoMatchRec = false ∧
      coinbaseIsDeposit coinbaseNoMatchRec = false ∧
      coinbaseIsWithdrawal coinbaseNoMatchRec = false) := by
  decide

/-- C7 (amended): classification is resolved by the fixed `if/elif`
priority trade → deposit → withdrawal, which assigns every record exactly
one effective class even where the raw predicates overlap; a record
matching no predicate is classified `unknown` (handled by a sentinel
result, not an error). -/
theorem classify_priority_dispatch :
    (∀ r : CoinbaseRaw,
      (coinbaseClassify r = TxClass.trade ↔ coinbaseIsTrade r = true) ∧
      (coinbaseClassify r = TxClass.deposit ↔
        (coinbaseIsTrade r = false ∧ coinbaseIsDeposit r = true)) ∧
      (coinbaseClassify r = TxClass.withdrawal ↔
        (coinbaseIsTrade r = false ∧ coinbaseIsDeposit r = false ∧
          coinbaseIsWithdrawal r = true)) ∧
      (coinbaseClassify r = TxClass.unknown ↔
        (coinbaseIsTrade r = false ∧ coinbaseIsDeposit r = false ∧
          coinbaseIsWithdrawal r = false))) ∧
    (∀ r : BinanceRaw,
      (binanceClassify r = TxClass.trade ↔ binanceIsTrade r = true) ∧
      (binanceClassify r = TxClass.deposit ↔
        (binanceIsTrade r = false ∧ binanceIsDeposit r = true)) ∧
      (binanceClassify r = TxClass.withdrawal ↔
        (binanceIsTrade r = false ∧ binanceIsDeposit r = false ∧
          binanceIsWithdrawal r = true)) ∧
      (binanceClassify r = TxClass.unknown ↔
        (binanceIsTrade r = false ∧ binanceIsDeposit r = false ∧
          binanceIsWithdrawal r = false))) := by
  constructor
  · intro r
    cases h1 : coinbaseIsTrade r <;> cases h2 : coinbaseIsDeposit r <;>
      cases h3 : coinbaseIsWithdrawal r <;>
        simp [coinbaseClassify, h1, h2, h3]
  · intro r
    cases h1 : binanceIsTrade r <;> cases h2 : binanceIsDeposit r <;>
      cases h3 : binanceIsWithdrawal r <;>
        simp [binanceClassify, h1, h2, h3]

/-- The Binance trade record of C9: symbol `BTCUSDT`, quantity 1, price 2,
buyer side. -/
def binanceUsdtTradeRec : BinanceRaw :=
  { hasIsBuyer := true, hasInsertTime := false, hasApplyTime := false
    symbol := "BTCUSDT", qty := 1, price := 2, isBuyer := true
    asset := "", amount := 0 }

/-- C9 (failing input): for the `BTCUSDT` trade the USDT-suffix split is
computed and then overwritten, so `get_coins_amounts` returns base
`"BTCU"` and quote `"SDT"` — not the suffix split `("BTC", "USDT")` the
claim describes. -/
theorem binance_usdt_split_overwritten :
    binanceGetCoinsAmounts binanceUsdtTradeRec =
      (some "BTCU", 1, some "SDT", 2) := by
  simp only [binanceGetCoinsAmounts, binanceUsdtTradeRec, binanceIsTrade,
    mul_one]
  decide

/-- A Bitfinex raw record: a `type` string plus the optional fee and
currency fields its extraction reads (`none` = key absent). -/
structure BitfinexRaw where
  type : String
  fee_currency : Option String
  fee_amount : Option Rat
  currency : Option String
  fee : Option Rat
  status : String
  timestamp : Int
deriving DecidableEq, Repr

/-- `BitfinexParser.is_trade`: `raw["type"] in ["Sell", "Buy"]`. -/
def bitfinexIsTrade (raw : BitfinexRaw) : Bool :=
  raw.type == "Sell" || raw.type == "Buy"

/-- `BitfinexParser.is_deposit`: `raw["type"] == "DEPOSIT"`. -/
def bitfinexIsDeposit (raw : BitfinexRaw) : Bool := raw.type == "DEPOSIT"

/-- `BitfinexParser.is_withdrawal`: `raw["type"] == "WITHDRAWAL"`. -/
def bitfinexIsWithdrawal (raw : BitfinexRaw) : Bool :=
  raw.type == "WITHDRAWAL"

/-- `BitfinexParser.get_fee`.  The second branch is
`elif self.is_deposit(raw) or self.is_trade(raw)` — the source re-tests
`is_trade` there instead of `is_withdrawal`, so withdrawal records match no
branch and Python falls off the end, returning `None` (`Except.ok none`).
Missing fee fields raise `KeyError` (`Except.error`). -/
def bitfinexGetFee (raw : BitfinexRaw) :
    Except Unit (Option (String × Rat)) :=
  if bitfinexIsTrade raw then
    match raw.fee_currency, raw.fee_amount with
    | some c, some a => Except.ok (some (c, |a|))
    | _, _ => Except.error ()
  else if bitfinexIsDeposit raw || bitfinexIsTrade raw then
    match raw.currency, raw.fee with
    | some c, some f => Except.ok (some (c, |f|))
    | _, _ => Except.error ()
  else
    Except.ok none

/-- `BitfinexParser.is_successful`: for a trade, `float(raw["fee_amount"])
<= 0` (`KeyError` if the field is absent); for a deposit or withdrawal,
`raw["status"] == "COMPLETED"`; otherwise `False`. -/
def bitfinexIsSuccessful (raw : BitfinexRaw) : Except Unit Bool :=
  if bitfinexIsTrade raw then
    match raw.fee_amount with
    | some a => Except.ok (decide (a ≤ 0))
    | none => Except.error ()
  else if bitfinexIsDeposit raw || bitfinexIsWithdrawal raw then
    Except.ok (raw.status == "COMPLETED")
  else
    Except.ok false

/-- Modelled from the spec: the `Commission` record
(`pyhodl.models.transactions`, not among the provided sources) carries the
fee coin, its amount, the date and the success flag. -/
structure Commission where
  coin : String
  amount : Rat
  date : Int
  successful : Bool
deriving DecidableEq, Repr

/-- `BitfinexParser.get_commission`:

    fee_coin, amount = self.get_fee(raw)
    if fee_coin:
        return Commission(raw, fee_coin, amount, self.get_date(raw),
                          self.is_successful(raw))

When `get_fee` returns `None` (e.g. on a withdrawal record), the tuple
unpacking raises `TypeError` (`Except.error`); `if fee_coin:` is Python
truthiness, i.e. a nonempty string. -/
def bitfinexGetCommission (raw : BitfinexRaw) :
    Except Unit (Option Commission) :=
  match bitfinexGetFee raw with
  | Except.error _ => Except.error ()
  | Except.ok none => Except.error ()
  | Except.ok (some (c, a)) =>
    if c ≠ "" then
      match bitfinexIsSuccessful raw with
      | Except.error _ => Except.error ()
      | Except.ok s =>
        Except.ok (some { coin := c, amount := a, date := raw.timestamp
                          successful := s })
    else
      Except.ok none

/-- A completed Bitfinex withdrawal record (no fee fields needed for the
crash: the fee branch never looks at them). -/
def bitfinexWithdrawalRec : BitfinexRaw :=
  { type := "WITHDRAWAL", fee_currency := none, fee_amount := none
    currency := some "BTC", fee := some 1, status := "COMPLETED"
    timestamp := 0 }

/-- A Bitfinex trade record lacking both fee fields. -/
def bitfinexTradeNoFeeRec : BitfinexRaw :=
  { type := "Buy", fee_currency := none, fee_amount := none
    currency := none, fee := none, status := "COMPLETED", timestamp := 0 }

/-- C8 (failing input): `BitfinexParser.get_commission` raises out of the
adapter instead of returning "no commission": on a withdrawal record
`get_fee` returns `None` (its second branch re-tests `is_trade` instead of
`is_withdrawal`) and the tuple unpacking raises `TypeError`; on a trade
record lacking fee fields the `KeyError` propagates. -/
theorem bitfinexGetCommission_raises :
    bitfinexGetCommission bitfinexWithdrawalRec = Except.error () ∧
      bitfinexGetCommission bitfinexTradeNoFeeRec = Except.error () := by
  constructor <;> rfl

/-! ## CryptoExchange.build_wallets
(src/pyhodl/core/models/exchanges.py) -/

/-- Modelled from the spec: a canonical `Transaction`
(`pyhodl.models.transactions`, not among the provided sources) carries
optional buy/sell coins, a success flag, and an id payload distinguishing
transactions. -/
structure Transaction where
  buy_coin : Option String
  sell_coin : Option String
  successful : Bool
  payload : Nat
deriving DecidableEq, Repr

/-- Modelled from the spec: `Transaction.get_coins()` "returns the set of
non-null coin symbols touched (1 or 2 elements)". -/
def Transaction.getCoins (t : Transaction) : List String :=
  (t.buy_coin.toList ++ t.sell_coin.toList).dedup

/-- The wallets dict built by `build_wallets`, keyed by coin; a wallet is
reduced to its transaction sequence (modelled from the spec: `Wallet(coin)`
starts empty and `add_transaction` appends in arrival order). -/
abbrev Wallets := List (String × List Transaction)

/-- One inner iteration of `build_wallets`:

    if coin not in wallets:
        wallets[coin] = Wallet(coin)
    wallets[coin].add_transaction(transaction)
-/
def walletAdd (ws : Wallets) (c : String) (t : Transaction) : Wallets :=
  let ws' := if ws.any (fun p => p.1 = c) then ws else pyDictSet ws c []
  pyDictSet ws' c ((pyDictGet ws' c).getD [] ++ [t])

/-- `CryptoExchange.build_wallets`: iterate the transactions that satisfy
`lambda x: x.successful`, and for each the coins of `get_coins()`. -/
def buildWallets (txs : List Transaction) : Wallets :=
  (txs.filter (fun t => t.successful)).foldl
    (fun ws t => t.getCoins.foldl (fun ws c => walletAdd ws c t) ws) []

theorem pyDict_any_key {β : Type} (m : List (String × β)) (k : String) :
    m.any (fun p => p.1 = k) = true ↔ k ∈ m.map Prod.fst := by
  simp only [List.any_eq_true, decide_eq_true_eq, List.mem_map]

theorem walletAdd_get (ws : Wallets) (c c' : String) (t : Transaction) :
    pyDictGet (walletAdd ws c t) c' =
      if c' = c then some ((pyDictGet ws c).getD [] ++ [t])
      else pyDictGet ws c' := by
  simp only [walletAdd]
  by_cases hm : ws.any (fun p => p.1 = c) = true
  · simp only [hm, if_true, pyDictGet_set]
  · have hnone : pyDictGet ws c = none :=
      (pyDictGet_eq_none_iff ws c).mpr
        (fun h => hm ((pyDict_any_key ws c).mpr h))
    simp only [Bool.not_eq_true] at hm
    simp only [hm, Bool.false_eq_true, if_false, pyDictGet_set]
    by_cases hc : c' = c
    · subst hc
      simp [hnone]
    · simp [hc]

theorem walletAdd_keys (ws : Wallets) (c : String) (t : Transaction) :
    (walletAdd ws c t).map Prod.fst =
      if c ∈ ws.map Prod.fst then ws.map Prod.fst
      else ws.map Prod.fst ++ [c] := by
  simp only [walletAdd]
  by_cases hm : ws.any (fun p => p.1 = c) = true
  · have hc : c ∈ ws.map Prod.fst := (pyDict_any_key ws c).mp hm
    simp [hm, pyDictSet_keys, hc]
  · have hc : c ∉ ws.map Prod.fst :=
      fun h => hm ((pyDict_any_key ws c).mpr h)
    simp only [Bool.not_eq_true] at hm
    simp [hm, pyDictSet_keys, hc]

theorem walletAdd_keys_nodup (ws : Wallets) (c : String) (t : Transaction)
    (h : (ws.map Prod.fst).Nodup) :
    ((walletAdd ws c t).map Prod.fst).Nodup := by
  rw [walletAdd_keys]
  by_cases hc : c ∈ ws.map Prod.fst
  · simpa [hc] using h
  · simp only [if_neg hc]
    rw [List.nodup_append]
    exact ⟨h, List.nodup_singleton c, by
      intro a ha hb
      simp only [List.mem_singleton] at hb
      subst hb
      exact hc ha⟩

theorem foldl_walletAdd_get (t : Transaction) (coins : List String)
    (hnd : coins.Nodup) :
    ∀ (ws : Wallets) (c : String),
      pyDictGet (coins.foldl (fun ws c => walletAdd ws c t) ws) c =
        if c ∈ coins then some ((pyDictGet ws c).getD [] ++ [t])
        else pyDictGet ws c := by
  induction coins with
  | nil => intro ws c; simp
  | cons a rest ih =>
    intro ws c
    have hnd' : rest.Nodup := hnd.of_cons
    have hanotin : a ∉ rest := (List.nodup_cons.mp hnd).1
    rw [List.foldl_cons, ih hnd']
    by_cases hc : c ∈ rest
    · have hca : ¬c = a := fun h => hanotin (h ▸ hc)
      rw [if_pos hc, if_pos (List.mem_cons.mpr (Or.inr hc)), walletAdd_get,
        if_neg hca]
    · by_cases hca : c = a
      · subst hca
        rw [if_neg hc, if_pos (List.mem_cons_self c rest), walletAdd_get,
          if_pos rfl]
      · rw [if_neg hc, if_neg (by simp [hca, hc]), walletAdd_get,
          if_neg hca]

theorem foldl_walletAdd_nodup (t : Transaction) (coins : List String) :
    ∀ ws : Wallets, (ws.map Prod.fst).Nodup →
      ((coins.foldl (fun ws c => walletAdd ws c t) ws).map Prod.fst).Nodup := by
  induction coins with
  | nil => intro ws h; simpa using h
  | cons a rest ih =>
    intro ws h
    rw [List.foldl_cons]
    exact ih _ (walletAdd_keys_nodup ws a t h)

/-- Invariant of `build_wallets`' outer loop: after replaying the (already
successful-filtered) transactions `pre`, the wallets dict has
duplicate-free keys and maps each coin to exactly the transactions of `pre`
touching it, in order — no entry at all for untouched coins. -/
def walletsInv (pre : List Transaction) (ws : Wallets) : Prop :=
  (ws.map Prod.fst).Nodup ∧
  ∀ c, pyDictGet ws c =
    (if pre.filter (fun t => decide (c ∈ t.getCoins)) = [] then none
     else some (pre.filter (fun t => decide (c ∈ t.getCoins))))

theorem walletsInv_step (pre : List Transaction) (ws : Wallets)
    (t : Transaction) (h : walletsInv pre ws) :
    walletsInv (pre ++ [t])
      (t.getCoins.foldl (fun ws c => walletAdd ws c t) ws) := by
  obtain ⟨hnd, hget⟩ := h
  refine ⟨foldl_walletAdd_nodup t t.getCoins ws hnd, ?_⟩
  intro c
  rw [foldl_walletAdd_get t t.getCoins (List.nodup_dedup _) ws c,
    List.filter_append]
  by_cases hc : c ∈ t.getCoins
  · have hone : List.filter (fun u => decide (c ∈ u.getCoins)) [t] = [t] := by
      simp [hc]
    rw [if_pos hc, hget c, hone]
    by_cases hp : pre.filter (fun u => decide (c ∈ u.getCoins)) = []
    · simp [hp]
    · simp [hp]
  · have hzero : List.filter (fun u => decide (c ∈ u.getCoins)) [t] = [] := by
      simp [hc]
    rw [if_neg hc, hget c, hzero, List.append_nil]

theorem walletsInv_foldl (l : List Transaction) :
    ∀ pre ws, walletsInv pre ws →
      walletsInv (pre ++ l)
        (l.foldl
          (fun ws t => t.getCoins.foldl (fun ws c => walletAdd ws c t) ws)
          ws) := by
  induction l with
  | nil => intro pre ws h; simpa using h
  | cons t l ih =>
    intro pre ws h
    rw [List.foldl_cons]
    have := ih (pre ++ [t]) _ (walletsInv_step pre ws t h)
    simpa [List.append_assoc] using this

theorem buildWallets_inv (txs : List Transaction) :
    walletsInv (txs.filter (fun t => t.successful)) (buildWallets txs) := by
  have h0 : walletsInv [] [] := ⟨by simp, fun c => by simp [pyDictGet]⟩
  have := walletsInv_foldl (txs.filter (fun t => t.successful)) [] [] h0
  simpa [buildWallets] using this

theorem buildWallets_get (txs : List Transaction) (c : String) :
    pyDictGet (buildWallets txs) c =
      (if txs.filter (fun t => t.successful && decide (c ∈ t.getCoins)) = []
       then none
       else
         some (txs.filter
           (fun t => t.successful && decide (c ∈ t.getCoins)))) := by
  have h := (buildWallets_inv txs).2 c
  have hff : (txs.filter (fun t => t.successful)).filter
      (fun t => decide (c ∈ t.getCoins)) =
      txs.filter (fun t => t.successful && decide (c ∈ t.getCoins)) := by
    rw [List.filter_filter]
    exact List.filter_congr (fun t _ => Bool.and_comm _ _)
  rw [h, hff]

/-- C6: `build_wallets` keeps only `successful == true` transactions,
creates exactly one wallet per distinct coin touched by some successful
transaction (duplicate-free keys, a wallet exists for a coin iff some
successful transaction touches it), and each coin's wallet holds exactly
the successful transactions touching that coin, in order — so a two-coin
trade lands in both wallets and failed transactions land in none. -/
theorem buildWallets_spec (txs : List Transaction) :
    ((buildWallets txs).map Prod.fst).Nodup ∧
    (∀ c : String, (pyDictGet (buildWallets txs) c).isSome ↔
        ∃ t ∈ txs, t.successful = true ∧ c ∈ t.getCoins) ∧
    (∀ c w, pyDictGet (buildWallets txs) c = some w →
      w = txs.filter (fun t => t.successful && decide (c ∈ t.getCoins))) := by
  refine ⟨(buildWallets_inv txs).1, ?_, ?_⟩
  · intro c
    rw [buildWallets_get]
    by_cases hf : txs.filter
        (fun t => t.successful && decide (c ∈ t.getCoins)) = []
    · simp only [if_pos hf, Option.isSome_none, Bool.false_eq_true,
        false_iff]
      rintro ⟨t, htmem, hsucc, hcoin⟩
      have : t ∈ txs.filter
          (fun t => t.successful && decide (c ∈ t.getCoins)) :=
        List.mem_filter.mpr ⟨htmem, by simp [hsucc, hcoin]⟩
      rw [hf] at this
      exact absurd this (List.not_mem_nil t)
    · simp only [if_neg hf, Option.isSome_some, true_iff]
      obtain ⟨t, ht⟩ := List.exists_mem_of_ne_nil _ hf
      obtain ⟨htmem, hcond⟩ := List.mem_filter.mp ht
      rw [Bool.and_eq_true] at hcond
      exact ⟨t, htmem, hcond.1, by simpa using hcond.2⟩
  · intro c w hw
    rw [buildWallets_get] at hw
    by_cases hf : txs.filter
        (fun t => t.successful && decide (c ∈ t.getCoins)) = []
    · rw [if_pos hf] at hw
      exact absurd hw (by simp)
    · rw [if_neg hf] at hw
      exact (Option.some.inj hw).symm

/-- The spec's example: a successful BTC → USD trade. -/
def demoTx : Transaction :=
  { buy_coin := some "BTC", sell_coin := some "USD", successful := true
    payload := 0 }

/-- The spec's example: a failed trade. -/
def failedTx : Transaction :=
  { buy_coin := some "ETH", sell_coin := some "BTC", successful := false
    payload := 1 }

/-- Witness for C6 at the spec's example exchange: one successful
BTC → USD trade plus one failed trade. -/
theorem buildWallets_spec_witness :
    ((buildWallets [demoTx, failedTx]).map Prod.fst).Nodup ∧
    (∀ c : String, (pyDictGet (buildWallets [demoTx, failedTx]) c).isSome ↔
        ∃ t ∈ [demoTx, failedTx], t.successful = true ∧ c ∈ t.getCoins) ∧
    (∀ c w, pyDictGet (buildWallets [demoTx, failedTx]) c = some w →
      w = [demoTx, failedTx].filter
        (fun t => t.successful && decide (c ∈ t.getCoins))) :=
  buildWallets_spec [demoTx, failedTx]

/-- A Bitfinex trade record with a strictly positive fee amount. -/
def bitfinexFeeTradeRec : BitfinexRaw :=
  { type := "Buy", fee_currency := some "USD", fee_amount := some 5
    currency := none, fee := none, status := "", timestamp := 0 }

/-- C10: for a Bitfinex-like trade record whose `fee_amount` parses to `a`,
`is_successful` returns `True` iff `a ≤ 0` — so a strictly positive fee
makes the trade unsuccessful; and `build_wallets` puts only transactions
with `successful = true` into wallets, so such a trade is excluded. -/
theorem bitfinex_successful_iff_fee_nonpositive :
    (∀ (raw : BitfinexRaw) (a : Rat), raw.fee_amount = some a →
      bitfinexIsTrade raw = true →
      (bitfinexIsSuccessful raw = Except.ok true ↔ a ≤ 0)) ∧
    (∀ (txs : List Transaction) (c : String) (w : List Transaction)
        (t : Transaction), pyDictGet (buildWallets txs) c = some w →
      t ∈ w → t.successful = true) := by
  constructor
  · intro raw a hfa htr
    simp [bitfinexIsSuccessful, htr, hfa]
  · intro txs c w t hw htw
    rw [buildWallets_get] at hw
    by_cases hf : txs.filter
        (fun t => t.successful && decide (c ∈ t.getCoins)) = []
    · rw [if_pos hf] at hw
      exact absurd hw (by simp)
    · rw [if_neg hf] at hw
      have hww := (Option.some.inj hw).symm
      subst hww
      have := (List.mem_filter.mp htw).2
      rw [Bool.and_eq_true] at this
      exact this.1

/-- Witness for C10: the positive-fee trade record is reported
unsuccessful, and the successful demo transaction sits in the BTC wallet
with `successful = true`. -/
theorem bitfinex_successful_iff_fee_nonpositive_witness :
    (bitfinexFeeTradeRec.fee_amount = some 5 ∧
      bitfinexIsTrade bitfinexFeeTradeRec = true ∧
      (bitfinexIsSuccessful bitfinexFeeTradeRec = Except.ok true ↔
        (5 : Rat) ≤ 0)) ∧
    (pyDictGet (buildWallets [demoTx]) "BTC" = some [demoTx] ∧
      demoTx ∈ [demoTx] ∧ demoTx.successful = true) :=
  ⟨⟨rfl, rfl,
    bitfinex_successful_iff_fee_nonpositive.1 bitfinexFeeTradeRec 5 rfl rfl⟩,
    ⟨by decide, by decide,
      bitfinex_successful_iff_fee_nonpositive.2 [demoTx] "BTC" [demoTx]
        demoTx (by decide) (by decide)⟩⟩

end Pyhodl
